import Mathlib

/-!
Verification of the `Http` request-adapter class (src/index.ts) of
Tolkam-JS-Packages/lib-http: a thin wrapper over an axios transport that
defaults request-configuration hooks, converts payloads to multipart form
data, normalizes progress events, and fans request failures out to a
process-wide list of error listeners classified by failure kind.

The embedding is shallow: JavaScript error values become an explicit
datatype (`JSValue`) distinguishing nullish values from error-shaped
objects; attribute access on a possibly-nullish value is `Except` (a
`TypeError` is the `.error` case); the mutable listener array becomes
explicit list-state passing; `FormData` becomes an ordered list of
key/value entries with the `set`/`append` semantics of the DOM; numbers
in the progress computation are rationals (progress events carry
natural-number byte counts).
-/

namespace LibHttp

/-- The four error kinds of the `errorTypes` constant (src/index.ts lines 4-9). -/
inductive TErrorType where
  | response
  | request
  | cancel
  | unknown
deriving DecidableEq, Repr

/-- Shape of a non-nullish value as far as `Http.onError` / `Http.isOwnError`
inspect it: truthiness of its `response`, `request` and `isAxiosError`
attributes, and whether the cancellation predicate of the transport holds
of it. -/
structure ErrorShape where
  isCancelSignal : Bool
  response : Bool
  request : Bool
  isAxiosError : Bool
deriving DecidableEq, Repr

/-- A JavaScript value as inspected by the failure-handling code: either
nullish (`null` or `undefined`) or an error-shaped object. -/
inductive JSValue where
  | nullish
  | obj (o : ErrorShape)
deriving DecidableEq, Repr

/-- Modelled from the spec: the transport's cancellation predicate
(`axios.isCancel`, delegated to by `Http.isCancel`, src/index.ts line 96) —
true iff the value denotes a cancellation signal raised by the cancellation
mechanism.  A nullish value denotes no cancellation signal, and the
predicate itself never throws. -/
def isCancelVal : JSValue → Bool
  | .nullish => false
  | .obj o => o.isCancelSignal

/-- Attribute access `v.attr` on a JavaScript value: on a nullish receiver
it throws a `TypeError` (the `.error` case); on an object it returns the
truthiness of the selected attribute. -/
def getAttr (v : JSValue) (f : ErrorShape → Bool) : Except Unit Bool :=
  match v with
  | .nullish => .error ()
  | .obj o => .ok (f o)

/-- `Http.isOwnError` (src/index.ts lines 104-106):
`(value as IError).isAxiosError || this.isCancel(value)`.
The `isAxiosError` read is unguarded, so a nullish argument throws. -/
def isOwnError (v : JSValue) : Except Unit Bool :=
  match getAttr v (fun o => o.isAxiosError) with
  | .error u => .error u
  | .ok b => .ok (b || isCancelVal v)

/-- The classification performed inside `Http.onError` (src/index.ts lines
116-124): `errorType` starts as `unknown`; `isCancel` wins first, then a
truthy `response` attribute, then a truthy `request` attribute.  The
attribute reads are unguarded, so they throw on a nullish error value. -/
def classifyError (e : JSValue) : Except Unit TErrorType :=
  if isCancelVal e then .ok .cancel
  else
    match getAttr e (fun o => o.response) with
    | .error u => .error u
    | .ok r =>
      if r then .ok .response
      else
        match getAttr e (fun o => o.request) with
        | .error u => .error u
        | .ok q => if q then .ok .request else .ok .unknown

/-- A listener is identified by a natural number; a recorded call carries
the listener, the error value it received and the classified kind. -/
abbrev Listener := Nat

/-- One listener invocation as observed from outside: who was called,
with which error value and which classified kind. -/
abbrev ListenerCall := Listener × JSValue × TErrorType

/-- `Http.onError` (src/index.ts lines 115-129): classify the error, then
invoke every listener of the current sequence in order with
`(error, errorType)`.  The returned trace lists the calls in the order they
are made; if classification throws, no listener is invoked. -/
def onError (listeners : List Listener) (error : JSValue) :
    Except Unit (List ListenerCall) :=
  match classifyError error with
  | .error u => .error u
  | .ok errorType => .ok (listeners.map (fun L => (L, error, errorType)))

/-- `Http.addErrorListener` (src/index.ts lines 78-86): pushes the listener
onto the shared array and returns the new element count; the unsubscribe
closure captures that count.  Result: the new listener sequence and the
captured count. -/
def addErrorListener (listeners : List Listener) (L : Listener) :
    List Listener × Nat :=
  (listeners ++ [L], (listeners ++ [L]).length)

/-- The unsubscribe closure returned by `addErrorListener` (src/index.ts
lines 83-85): `errorListeners.splice(count-1, 1)` — remove the element at
index `count - 1` of the current sequence, if that index is occupied. -/
def unsubscribe (count : Nat) (listeners : List Listener) : List Listener :=
  listeners.eraseIdx (count - 1)

/-- A query-parameter serializer slot of a request configuration: either
the adapter's PHP-style `urlEncode` default (src/index.ts lines 138-140) or
a caller-supplied custom function, identified opaquely. -/
inductive Serializer where
  | urlEncode
  | custom (id : Nat)
deriving DecidableEq, Repr

/-- A request-body transform slot: either the adapter's
`convertToFormData` default (src/index.ts lines 150-168) or a
caller-supplied custom function, identified opaquely. -/
inductive Transform where
  | convertToFormDataHook
  | custom (id : Nat)
deriving DecidableEq, Repr

/-- A progress-handler slot: either the normalization wrapper that
`request` installs around the caller's `onProgress` callback (src/index.ts
lines 55-57) or a caller-supplied custom handler. -/
inductive ProgressHandler where
  | normalized (cb : Nat)
  | custom (id : Nat)
deriving DecidableEq, Repr

/-- The `IRequestConfig` fields `Http.request` touches, plus opaque
pass-through fields (url, method, headers, params, data) standing for
everything it does not touch. -/
structure IRequestConfig where
  url : Option String := none
  method : Option String := none
  headers : Option Nat := none
  params : Option Nat := none
  data : Option Nat := none
  cancelToken : Option Nat := none
  paramsSerializer : Option Serializer := none
  transformRequest : Option Transform := none
  onDownloadProgress : Option ProgressHandler := none
  onUploadProgress : Option ProgressHandler := none
deriving DecidableEq, Repr

/-- The configuration-update steps of `Http.request` (src/index.ts lines
44-58), applied to the caller-supplied `config` object itself (the source
assigns to `config.*` directly; no copy is made): always set a fresh
cancellation token; install the PHP-style serializer when no
`paramsSerializer` is present; install the form-data transform when no
`transformRequest` is present; when an `onProgress` callback is given, set
both progress handlers to the normalization wrapper around it.  The result
is the value of the caller's configuration object when `request` returns,
which is also the configuration submitted to the transport. -/
def submitConfig (config : IRequestConfig) (token : Nat)
    (onProgress : Option Nat) : IRequestConfig :=
  let c1 := { config with cancelToken := some token }
  let c2 := if c1.paramsSerializer.isSome then c1
            else { c1 with paramsSerializer := some .urlEncode }
  let c3 := if c2.transformRequest.isSome then c2
            else { c2 with transformRequest := some .convertToFormDataHook }
  match onProgress with
  | none => c3
  | some cb => { c3 with onDownloadProgress := some (.normalized cb),
                         onUploadProgress := some (.normalized cb) }

/-- An opaque successful transport response. -/
abbrev Response := Nat

/-- The result handling of `Http.request` (src/index.ts lines 60-68): the
promise obtained from the transport is returned to the caller unchanged
(first component); `promise.catch(that.onError)` additionally derives a
separate promise that feeds a rejection, if any, to `onError` (second
component); the returned pair is `[promise, cancelFn]`, not the derived
promise. -/
def requestResult (outcome : Except JSValue Response)
    (listeners : List Listener) :
    Except JSValue Response × Except Unit (List ListenerCall) :=
  (outcome,
   match outcome with
   | .ok _ => .ok []
   | .error e => onError listeners e)

/-- A value stored in a form-data entry (string field or file), opaque. -/
abbrev FormValue := Nat

/-- A form-data body: the ordered list of its key/value entries. -/
abbrev FormDataEntries := List (String × FormValue)

/-- `FormData.set(name, value)` (DOM semantics; used for scalar fields at
src/index.ts line 163): if entries with key `name` exist, replace the first
one with the new value and drop the later ones; otherwise append the new
entry at the end. -/
def formSet : FormDataEntries → String → FormValue → FormDataEntries
  | [], name, v => [(name, v)]
  | e :: rest, name, v =>
    if e.1 = name then (name, v) :: rest.filter (fun e2 => e2.1 != name)
    else e :: formSet rest name v

/-- `FormData.append(name, value)` (used for list elements at src/index.ts
line 160): add an entry at the end, keeping all existing entries. -/
def formAppend (fd : FormDataEntries) (name : String) (v : FormValue) :
    FormDataEntries :=
  fd ++ [(name, v)]

/-- A field value of the payload object handed to `convertToFormData`:
either a scalar, or a list of elements (a JavaScript `Array` or
`FileList`). -/
inductive FieldValue where
  | scalar (v : FormValue)
  | list (vs : List FormValue)
deriving DecidableEq, Repr

/-- The body of the `for (const name in data)` loop of
`Http.convertToFormData` (src/index.ts lines 156-165): a list-valued field
appends every element under `name + "[]"`; any other field is `set` once
under `name`. -/
def convertStep (fd : FormDataEntries) (field : String × FieldValue) :
    FormDataEntries :=
  match field.2 with
  | .list vs => vs.foldl (fun fd2 v => formAppend fd2 (field.1 ++ "[]") v) fd
  | .scalar v => formSet fd field.1 v

/-- `Http.convertToFormData` (src/index.ts lines 150-168): fold the
payload's fields in key order into a fresh `FormData`. -/
def convertToFormData (data : List (String × FieldValue)) : FormDataEntries :=
  data.foldl convertStep []

/-- The key under which a payload field's entries appear in the produced
form data: `name + "[]"` for a list-valued field, `name` itself
otherwise. -/
def effKey (field : String × FieldValue) : String :=
  match field.2 with
  | .list _ => field.1 ++ "[]"
  | .scalar _ => field.1

/-- The block of entries a single payload field contributes to the form
data when its key collides with no other field's key. -/
def expandField (field : String × FieldValue) : FormDataEntries :=
  match field.2 with
  | .list vs => vs.map (fun v => (field.1 ++ "[]", v))
  | .scalar v => [(field.1, v)]

/-- Concatenation of the entry blocks of all payload fields, in field
order. -/
def expandAll : List (String × FieldValue) → FormDataEntries
  | [] => []
  | f :: rest => expandField f ++ expandAll rest

/-- A DOM `ProgressEvent` as far as `normalizeProgress` inspects it: the
`lengthComputable` flag and the `loaded` / `total` byte counts (unsigned
integers in the DOM interface). -/
structure ProgressEvent where
  lengthComputable : Bool
  loaded : Nat
  total : Nat
deriving DecidableEq, Repr

/-- JavaScript `Math.round` on a (finite, rational) number: round half
toward positive infinity. -/
def mathRound (q : ℚ) : ℤ := ⌊q + 1 / 2⌋

/-- `Http.normalizeProgress` (src/index.ts lines 178-182): when the event
reports a computable length, invoke the callback once with
`Math.round(loaded / total * 100)`; otherwise do not invoke it.  The
result records the argument of the single callback invocation, if one is
made. -/
def normalizeProgress (e : ProgressEvent) : Option ℤ :=
  if e.lengthComputable then
    some (mathRound ((e.loaded : ℚ) / (e.total : ℚ) * 100))
  else none

end LibHttp

namespace LibHttp

/-- Removing the element at the registration position from a sequence that
still has the registered listener there (with only later additions after
it) removes exactly that element. -/
theorem eraseIdx_at_append (st0 : List Listener) (L : Listener)
    (rest : List Listener) :
    (st0 ++ L :: rest).eraseIdx st0.length = st0 ++ rest := by
  induction st0 with
  | nil => rfl
  | cons a tl ih => simpa [List.eraseIdx] using ih

/-- The captured count of a registration performed when the sequence was
`st0` points one past `st0`. -/
theorem addErrorListener_count (st0 : List Listener) (L : Listener) :
    (addErrorListener st0 L).2 - 1 = st0.length := by
  simp [addErrorListener]

/-- C1: for every error value reaching `onError`, the classified kind
follows the first-match-wins chain: cancellation → `cancel`, else truthy
`response` → `response`, else truthy `request` → `request`, else
`unknown`; in particular cancellation beats a `response` marker, and
`response` beats a `request` marker. -/
theorem classify_first_match_wins (o : ErrorShape) :
    classifyError (.obj o) =
      .ok (if o.isCancelSignal then .cancel
           else if o.response then .response
           else if o.request then .request
           else .unknown) ∧
    (o.isCancelSignal = true → classifyError (.obj o) = .ok .cancel) ∧
    (o.isCancelSignal = false → o.response = true →
      classifyError (.obj o) = .ok .response) := by
  refine ⟨?_, ?_, ?_⟩
  · cases hc : o.isCancelSignal <;> cases hr : o.response <;>
      cases hq : o.request <;>
      simp [classifyError, isCancelVal, getAttr, hc, hr, hq]
  · intro hc
    simp [classifyError, isCancelVal, hc]
  · intro hc hr
    simp [classifyError, isCancelVal, getAttr, hc, hr]

/-- Witness for `classify_first_match_wins`: an error carrying both the
cancellation marker and a `response` attribute is classified `cancel`, and
one carrying both `response` and `request` attributes is classified
`response`. -/
theorem classify_first_match_wins_witness :
    classifyError (.obj ⟨true, true, true, false⟩) = .ok .cancel ∧
    classifyError (.obj ⟨false, true, true, false⟩) = .ok .response :=
  ⟨(classify_first_match_wins ⟨true, true, true, false⟩).2.1 rfl,
   (classify_first_match_wins ⟨false, true, true, false⟩).2.2 rfl rfl⟩

/-- C2: on a failed request with error object `o`, `onError` invokes the
listeners of the current sequence exactly in registration order, each with
the same error value and the same classified kind; a listener occurring
once in the sequence is invoked exactly once, and for three registered
listeners the notification order is first, second, third. -/
theorem onError_fanout (ls : List Listener) (o : ErrorShape) :
    (∀ t, classifyError (.obj o) = .ok t →
      onError ls (.obj o) = .ok (ls.map (fun L => (L, JSValue.obj o, t))) ∧
      ∀ L : Listener,
        (ls.map (fun L => (L, JSValue.obj o, t))).count (L, JSValue.obj o, t)
          = ls.count L) ∧
    (∀ t l1 l2 l3, classifyError (.obj o) = .ok t →
      onError [l1, l2, l3] (.obj o) =
        .ok [(l1, .obj o, t), (l2, .obj o, t), (l3, .obj o, t)]) := by
  constructor
  · intro t ht
    constructor
    · simp [onError, ht]
    · intro L
      induction ls with
      | nil => simp
      | cons a tl ih =>
        simp only [List.map_cons, List.count_cons, ih]
        congr 1
        by_cases hXL : a = L
        · simp [hXL]
        · simp [hXL, Prod.ext_iff]
  · intro t l1 l2 l3 ht
    simp [onError, ht]

/-- Witness for `onError_fanout`: with listeners 1, 2, 3 registered in that
order and a plain network error (no response, truthy request), the trace is
exactly the three calls in order, each with kind `request`, and listener 2
is called exactly once. -/
theorem onError_fanout_witness :
    onError [1, 2, 3] (.obj ⟨false, false, true, true⟩) =
      .ok [(1, .obj ⟨false, false, true, true⟩, .request),
           (2, .obj ⟨false, false, true, true⟩, .request),
           (3, .obj ⟨false, false, true, true⟩, .request)] ∧
    ([(1, JSValue.obj ⟨false, false, true, true⟩, TErrorType.request),
      (2, .obj ⟨false, false, true, true⟩, .request),
      (3, .obj ⟨false, false, true, true⟩, .request)]).count
        (2, JSValue.obj ⟨false, false, true, true⟩, TErrorType.request) = 1 := by
  refine ⟨(onError_fanout [1, 2, 3] ⟨false, false, true, true⟩).2
      .request 1 2 3 rfl, ?_⟩
  have h := ((onError_fanout [1, 2, 3] ⟨false, false, true, true⟩).1
      .request rfl).2 2
  exact h

/-- C10: `isOwnError` reads `isAxiosError` unguarded, so a nullish argument
throws a `TypeError` instead of returning a boolean; `onError` reads
`.response` unguarded after the (null-safe) cancellation check, so a
nullish rejection value makes the failure-handling step throw before any
listener is notified. -/
theorem nullish_error_throws (ls : List Listener) :
    isOwnError .nullish = .error () ∧
    onError ls .nullish = .error () ∧
    ∀ trace, onError ls .nullish ≠ .ok trace := by
  refine ⟨rfl, rfl, ?_⟩
  intro trace h
  simp [onError, classifyError, isCancelVal, getAttr] at h

/-- C3: for a rejecting transport operation, the promise handed back to the
caller of `request` carries the original rejection value unchanged — the
side observation installed for listener notification lives on a separate
derived promise and never alters the caller-visible outcome. -/
theorem request_preserves_rejection (ls : List Listener) :
    (∀ e : JSValue, (requestResult (.error e) ls).1 = .error e) ∧
    (∀ outcome : Except JSValue Response,
      (requestResult outcome ls).1 = outcome) :=
  ⟨fun _ => rfl, fun _ => rfl⟩

/-- C4: `request` installs the PHP-style serializer exactly when the caller
supplied no `paramsSerializer`, and the form-data transform exactly when
the caller supplied no `transformRequest`; a caller-supplied hook is left
in place. -/
theorem request_defaults_hooks (c : IRequestConfig) (tok : Nat)
    (p : Option Nat) :
    (c.paramsSerializer = none →
      (submitConfig c tok p).paramsSerializer = some .urlEncode) ∧
    (∀ s, c.paramsSerializer = some s →
      (submitConfig c tok p).paramsSerializer = some s) ∧
    (c.transformRequest = none →
      (submitConfig c tok p).transformRequest = some .convertToFormDataHook) ∧
    (∀ t, c.transformRequest = some t →
      (submitConfig c tok p).transformRequest = some t) := by
  refine ⟨?_, ?_, ?_, ?_⟩ <;>
    (intros;
     cases hs : c.paramsSerializer <;> cases ht : c.transformRequest <;>
       cases p <;> simp_all [submitConfig])

/-- Witness for `request_defaults_hooks`: with an empty configuration both
defaults are installed; with custom hooks supplied, both are kept. -/
theorem request_defaults_hooks_witness :
    (submitConfig {} 0 none).paramsSerializer = some .urlEncode ∧
    (submitConfig {} 0 none).transformRequest = some .convertToFormDataHook ∧
    (submitConfig { paramsSerializer := some (.custom 5),
                    transformRequest := some (.custom 7) } 0
        none).paramsSerializer = some (.custom 5) ∧
    (submitConfig { paramsSerializer := some (.custom 5),
                    transformRequest := some (.custom 7) } 0
        none).transformRequest = some (.custom 7) :=
  ⟨(request_defaults_hooks {} 0 none).1 rfl,
   (request_defaults_hooks {} 0 none).2.2.1 rfl,
   (request_defaults_hooks { paramsSerializer := some (.custom 5),
                             transformRequest := some (.custom 7) } 0
       none).2.1 (.custom 5) rfl,
   (request_defaults_hooks { paramsSerializer := some (.custom 5),
                             transformRequest := some (.custom 7) } 0
       none).2.2.2 (.custom 7) rfl⟩

/-- C6: when the sequence at unsubscribe time is the registration-time
sequence `st0` followed by `L` and later additions `rest` (no out-of-order
removal has happened), the unsubscribe closure returned for `L` removes
exactly `L`, and a subsequent failing request notifies no call to `L`. -/
theorem unsubscribe_removes_registered (st0 rest : List Listener)
    (L : Listener) (h0 : L ∉ st0) (hR : L ∉ rest) :
    unsubscribe (addErrorListener st0 L).2 (st0 ++ L :: rest) = st0 ++ rest ∧
    L ∉ st0 ++ rest ∧
    ∀ (o : ErrorShape) (trace : List ListenerCall),
      onError (st0 ++ rest) (.obj o) = .ok trace →
      ∀ c ∈ trace, c.1 ≠ L := by
  refine ⟨?_, ?_, ?_⟩
  · rw [unsubscribe, addErrorListener_count]
    exact eraseIdx_at_append st0 L rest
  · simp [h0, hR]
  · intro o trace htrace c hc hcl
    have hmem : c.1 ∈ st0 ++ rest := by
      rcases hct : classifyError (.obj o) with u | t
      · simp [onError, hct] at htrace
      · rw [onError, hct] at htrace
        have : trace = (st0 ++ rest).map (fun M => (M, JSValue.obj o, t)) := by
          exact (Except.ok.injEq _ _).mp htrace.symm
        subst this
        rcases List.mem_map.mp hc with ⟨M, hM, hMc⟩
        subst hMc
        exact hM
    rw [hcl] at hmem
    simp [h0, hR] at hmem

/-- Witness for `unsubscribe_removes_registered`: listener 2 registered
after 1, with 3 added later; its unsubscribe brings the sequence from
`[1, 2, 3]` to `[1, 3]`, which no longer contains 2. -/
theorem unsubscribe_removes_registered_witness :
    unsubscribe (addErrorListener [1] 2).2 [1, 2, 3] = [1, 3] ∧
    (2 : Listener) ∉ [1, 3] :=
  ⟨(unsubscribe_removes_registered [1] [3] 2 (by decide) (by decide)).1,
   (unsubscribe_removes_registered [1] [3] 2 (by decide) (by decide)).2.1⟩

/-- C8 counterexample: `request` does not augment a shallow copy — the
caller's configuration object itself is visibly mutated: after a call with
an empty configuration, the caller's object carries the cancellation token,
so it no longer equals the object that was passed in. -/
theorem request_mutates_caller_config :
    submitConfig {} 0 none ≠ ({} : IRequestConfig) := by
  intro h
  have := congrArg IRequestConfig.cancelToken h
  simp [submitConfig] at this

/-- C8 amended: `request` mutates the caller-supplied configuration object
in place, but the mutation touches only the hook fields (cancellation
token, serializer, transform, progress handlers); every other field of the
caller's configuration is left unchanged. -/
theorem request_mutates_only_hooks (c : IRequestConfig) (tok : Nat)
    (p : Option Nat) :
    (submitConfig c tok p).url = c.url ∧
    (submitConfig c tok p).method = c.method ∧
    (submitConfig c tok p).headers = c.headers ∧
    (submitConfig c tok p).params = c.params ∧
    (submitConfig c tok p).data = c.data ∧
    (submitConfig c tok p).cancelToken = some tok := by
  refine ⟨?_, ?_, ?_, ?_, ?_, ?_⟩ <;>
    cases hs : c.paramsSerializer <;> cases ht : c.transformRequest <;>
      cases p <;> simp_all [submitConfig]

/-- C9: the unsubscribe closure is not idempotent: with later listeners
`M :: rest` registered after `L`, the first invocation removes `L`, and a
second invocation removes `M` — the still-subscribed listener that now
occupies the captured position — rather than being a no-op. -/
theorem unsubscribe_not_idempotent (st0 rest : List Listener)
    (L M : Listener) :
    unsubscribe (addErrorListener st0 L).2 (st0 ++ L :: M :: rest)
      = st0 ++ M :: rest ∧
    unsubscribe (addErrorListener st0 L).2 (st0 ++ M :: rest)
      = st0 ++ rest ∧
    unsubscribe (addErrorListener st0 L).2 (st0 ++ M :: rest)
      ≠ st0 ++ M :: rest := by
  have h1 : unsubscribe (addErrorListener st0 L).2 (st0 ++ L :: M :: rest)
      = st0 ++ M :: rest := by
    rw [unsubscribe, addErrorListener_count]
    exact eraseIdx_at_append st0 L (M :: rest)
  have h2 : unsubscribe (addErrorListener st0 L).2 (st0 ++ M :: rest)
      = st0 ++ rest := by
    rw [unsubscribe, addErrorListener_count]
    exact eraseIdx_at_append st0 M rest
  refine ⟨h1, h2, ?_⟩
  rw [h2]
  intro h
  have := congrArg List.length h
  simp at this

/-- `FormData.set` on a body containing no entry with the given key
appends a single entry at the end. -/
theorem formSet_not_mem (fd : FormDataEntries) (name : String)
    (v : FormValue) (h : ∀ e ∈ fd, e.1 ≠ name) :
    formSet fd name v = fd ++ [(name, v)] := by
  induction fd with
  | nil => rfl
  | cons e rest ih =>
    have he : e.1 ≠ name := h e (by simp)
    rw [formSet, if_neg he, ih (fun e2 h2 => h e2 (by simp [h2]))]
    simp

/-- Appending every element of a list under a fixed key adds exactly that
list's entries at the end, in order. -/
theorem foldl_formAppend (vs : List FormValue) (fd : FormDataEntries)
    (k : String) :
    vs.foldl (fun fd2 v => formAppend fd2 k v) fd
      = fd ++ vs.map (fun v => (k, v)) := by
  induction vs generalizing fd with
  | nil => simp
  | cons v rest ih =>
    rw [List.foldl_cons, ih]
    simp [formAppend]

/-- Every entry of a field's block carries that field's effective key. -/
theorem mem_expandField_key (f : String × FieldValue) (e : String × FormValue)
    (he : e ∈ expandField f) : e.1 = effKey f := by
  obtain ⟨name, val⟩ := f
  cases val with
  | scalar v =>
    simp [expandField] at he
    simp [he, effKey]
  | list vs =>
    rcases List.mem_map.mp (by simpa [expandField] using he) with ⟨v, _, rfl⟩
    simp [effKey]

/-- Every entry of the concatenated blocks comes from some field's
block. -/
theorem mem_expandAll (gs : List (String × FieldValue))
    (e : String × FormValue) (he : e ∈ expandAll gs) :
    ∃ g ∈ gs, e ∈ expandField g := by
  induction gs with
  | nil => simp [expandAll] at he
  | cons g rest ih =>
    rcases List.mem_append.mp (by simpa [expandAll] using he) with h | h
    · exact ⟨g, by simp, h⟩
    · obtain ⟨g2, hg2, he2⟩ := ih h
      exact ⟨g2, by simp [hg2], he2⟩

/-- `expandAll` distributes over concatenation of field lists. -/
theorem expandAll_append (xs ys : List (String × FieldValue)) :
    expandAll (xs ++ ys) = expandAll xs ++ expandAll ys := by
  induction xs with
  | nil => simp [expandAll]
  | cons x rest ih => simp [expandAll, ih]

/-- When the effective keys of the payload are pairwise distinct, the
conversion loop starting from any form body whose keys avoid those of the
remaining fields just appends each field's block. -/
theorem convert_go (data : List (String × FieldValue)) :
    ∀ fd : FormDataEntries,
    (∀ g ∈ data, ∀ e ∈ fd, e.1 ≠ effKey g) →
    ((data.map effKey).Nodup) →
    data.foldl convertStep fd = fd ++ expandAll data := by
  induction data with
  | nil =>
    intro fd _ _
    simp [expandAll]
  | cons x rest ih =>
    intro fd hdisj hnodup
    have hcons : (effKey x :: rest.map effKey).Nodup := by simpa using hnodup
    have hstep : convertStep fd x = fd ++ expandField x := by
      obtain ⟨name, val⟩ := x
      cases val with
      | list vs => simp [convertStep, expandField, foldl_formAppend]
      | scalar v =>
        have hne : ∀ e ∈ fd, e.1 ≠ name := by
          intro e he
          simpa [effKey] using hdisj (name, .scalar v) (by simp) e he
        simp [convertStep, expandField, formSet_not_mem fd name v hne]
    rw [List.foldl_cons, hstep,
       ih (fd ++ expandField x) ?_ (List.nodup_cons.mp hcons).2]
    · simp [expandAll]
    · intro g hg e he
      rcases List.mem_append.mp he with h | h
      · exact hdisj g (by simp [hg]) e h
      · rw [mem_expandField_key x e h]
        intro hEq
        exact (List.nodup_cons.mp hcons).1
          (hEq ▸ List.mem_map_of_mem effKey hg)

/-- No entry produced by fields whose effective key differs from `k`
survives a filter for key `k`. -/
theorem filter_expandAll_ne (gs : List (String × FieldValue)) (k : String)
    (h : ∀ g ∈ gs, effKey g ≠ k) :
    (expandAll gs).filter (fun e => e.1 == k) = [] := by
  rw [List.filter_eq_nil_iff]
  intro e he
  obtain ⟨g, hg, heg⟩ := mem_expandAll gs e he
  simp [mem_expandField_key g e heg, h g hg]

/-- Under pairwise-distinct effective keys, filtering the produced form
data for one field's effective key yields exactly that field's block. -/
theorem convert_filter_field (pre post : List (String × FieldValue))
    (x : String × FieldValue)
    (hnodup : ((pre ++ x :: post).map effKey).Nodup) :
    (convertToFormData (pre ++ x :: post)).filter
        (fun e => e.1 == effKey x) = expandField x := by
  have hconv : convertToFormData (pre ++ x :: post)
      = expandAll (pre ++ x :: post) := by
    rw [convertToFormData, convert_go _ [] (by simp) hnodup]
    simp
  have h2 : (List.map effKey pre
      ++ effKey x :: List.map effKey post).Nodup := by simpa using hnodup
  rw [List.nodup_append] at h2
  have hpre : ∀ g ∈ pre, effKey g ≠ effKey x := by
    intro g hg hEq
    exact h2.2.2 (List.mem_map_of_mem effKey hg)
      (by rw [hEq]; exact List.mem_cons_self _ _)
  have hpost : ∀ g ∈ post, effKey g ≠ effKey x := by
    have hx : effKey x ∉ post.map effKey := (List.nodup_cons.mp h2.2.1).1
    intro g hg hEq
    exact hx (hEq ▸ List.mem_map_of_mem effKey hg)
  rw [hconv, expandAll_append,
     show expandAll (x :: post) = expandField x ++ expandAll post from rfl,
     List.filter_append, List.filter_append,
     filter_expandAll_ne pre _ hpre, filter_expandAll_ne post _ hpost,
     List.filter_eq_self.mpr ?_]
  · simp
  · intro e he
    simp [mem_expandField_key x e he]

/-- C5 counterexample: the per-field entry counts fail on a payload whose
keys collide after the implicit `name` to `name + "[]"` renaming of
list-valued fields: in `{g: [1, 2, 3], "g[]": 7}` the three appended `g[]`
entries are clobbered by `FormData.set("g[]", 7)` (DOM semantics: replace
the first matching entry, drop the rest), leaving one entry under `g[]`
instead of three. -/
theorem convertToFormData_clobber :
    (convertToFormData [("g", .list [1, 2, 3]), ("g[]", .scalar 7)]).filter
        (fun e => e.1 == "g" ++ "[]") = [("g[]", 7)] ∧
    ((convertToFormData [("g", .list [1, 2, 3]), ("g[]", .scalar 7)]).filter
        (fun e => e.1 == "g" ++ "[]")).length ≠ 3 := by
  constructor <;> decide

/-- C5 amended: in a payload whose fields have pairwise-distinct effective keys, a
field `f` holding a list of `n` elements contributes exactly `n` entries
under key `f[]`, in element order, and a field `f` holding a scalar
contributes exactly one entry under key `f`. -/
theorem convertToFormData_entries (pre post : List (String × FieldValue))
    (f : String) :
    (∀ vs : List FormValue,
      ((pre ++ (f, FieldValue.list vs) :: post).map effKey).Nodup →
      (convertToFormData (pre ++ (f, .list vs) :: post)).filter
          (fun e => e.1 == f ++ "[]")
        = vs.map (fun v => (f ++ "[]", v))) ∧
    (∀ v : FormValue,
      ((pre ++ (f, FieldValue.scalar v) :: post).map effKey).Nodup →
      (convertToFormData (pre ++ (f, .scalar v) :: post)).filter
          (fun e => e.1 == f)
        = [(f, v)]) := by
  constructor
  · intro vs hnodup
    simpa [effKey, expandField]
      using convert_filter_field pre post (f, .list vs) hnodup
  · intro v hnodup
    simpa [effKey, expandField]
      using convert_filter_field pre post (f, .scalar v) hnodup

/-- Witness for `convertToFormData_entries`: the payload
`{a: [1, 2, 3], b: 7}` produces three entries under `a[]` in order and one
entry under `b`. -/
theorem convertToFormData_entries_witness :
    (convertToFormData [("a", .list [1, 2, 3]), ("b", .scalar 7)]).filter
        (fun e => e.1 == "a" ++ "[]")
      = [("a[]", 1), ("a[]", 2), ("a[]", 3)] ∧
    (convertToFormData [("a", .list [1, 2, 3]), ("b", .scalar 7)]).filter
        (fun e => e.1 == "b")
      = [("b", 7)] := by
  constructor
  · exact (convertToFormData_entries [] [("b", .scalar 7)] "a").1
      [1, 2, 3] (by decide)
  · exact (convertToFormData_entries [("a", .list [1, 2, 3])] [] "b").2
      7 (by decide)

/-- C7: a progress event with non-computable length never reaches the
callback; one with computable length (a positive total, with `loaded` in
the input domain `loaded ≤ total`) yields exactly one callback invocation
with `Math.round(loaded / total * 100)`, an integer between 0 and 100. -/
theorem normalizeProgress_spec (e : ProgressEvent) :
    (e.lengthComputable = false → normalizeProgress e = none) ∧
    (e.lengthComputable = true → 0 < e.total → e.loaded ≤ e.total →
      normalizeProgress e
          = some (mathRound ((e.loaded : ℚ) / (e.total : ℚ) * 100)) ∧
      0 ≤ mathRound ((e.loaded : ℚ) / (e.total : ℚ) * 100) ∧
      mathRound ((e.loaded : ℚ) / (e.total : ℚ) * 100) ≤ 100) := by
  constructor
  · intro h
    simp [normalizeProgress, h]
  · intro h ht hl
    have htq : (0 : ℚ) < (e.total : ℚ) := by exact_mod_cast ht
    have hlq : (e.loaded : ℚ) ≤ (e.total : ℚ) := by exact_mod_cast hl
    have hq0 : (0 : ℚ) ≤ (e.loaded : ℚ) / (e.total : ℚ) * 100 := by positivity
    have hq1 : (e.loaded : ℚ) / (e.total : ℚ) ≤ 1 :=
      div_le_one_of_le₀ hlq (le_of_lt htq)
    have hq100 : (e.loaded : ℚ) / (e.total : ℚ) * 100 ≤ 100 := by nlinarith
    refine ⟨by simp [normalizeProgress, h], ?_, ?_⟩
    · rw [mathRound]
      exact Int.le_floor.mpr (by push_cast; linarith)
    · rw [mathRound]
      have hfl : (⌊(e.loaded : ℚ) / (e.total : ℚ) * 100 + 1 / 2⌋ : ℤ) < 101 :=
        Int.floor_lt.mpr (by push_cast; linarith)
      omega

/-- Witness for `normalizeProgress_spec`: a non-computable event yields no
callback; a computable event with 1 of 3 bytes loaded yields one call with
33 = round(100/3). -/
theorem normalizeProgress_spec_witness :
    normalizeProgress ⟨false, 1, 3⟩ = none ∧
    normalizeProgress ⟨true, 1, 3⟩ = some 33 := by
  have h := (normalizeProgress_spec ⟨true, 1, 3⟩).2 rfl (by decide) (by decide)
  have h33 : mathRound (((1 : Nat) : ℚ) / ((3 : Nat) : ℚ) * 100) = 33 := by
    rw [mathRound]
    apply Int.floor_eq_iff.mpr
    constructor <;> norm_num
  refine ⟨(normalizeProgress_spec ⟨false, 1, 3⟩).1 rfl, ?_⟩
  rw [h.1, h33]

end LibHttp
